import Mathlib

/-!
Shallow embedding of the core of the `edumastervidedownloadr` repository:
the M3U8 playlist parser (`src/utils/videoDownloader.ts`, class `M3U8Parser`)
and the sequential segment download pipeline (class `VideoDownloader`).

JavaScript numbers that can be `NaN` in the relevant code paths (durations,
version, media sequence) are modelled by `JSNum`: either `nan` or a rational.
Byte buffers are modelled as `List Nat`.  String preprocessing (split on
newline, trim, filter truthy) is modelled character-by-character, mirroring
`content.split('\n').map(l => l.trim()).filter(l => l)`.
-/

/-- A JavaScript number in the code paths we model: `NaN` or a rational value.
(The source only produces finite values or `NaN` here; infinities are not
reachable from the inputs the claims quantify over.) -/
inductive JSNum where
  | nan : JSNum
  | num : ℚ → JSNum
deriving DecidableEq

/-- JavaScript addition restricted to `JSNum`: `NaN` is absorbing. -/
def JSNum.add : JSNum → JSNum → JSNum
  | JSNum.num a, JSNum.num b => JSNum.num (a + b)
  | _, _ => JSNum.nan

/-- JavaScript unary minus on `JSNum`. -/
def JSNum.neg : JSNum → JSNum
  | JSNum.num a => JSNum.num (-a)
  | JSNum.nan => JSNum.nan

/-- Predicate `leadsWith p l` is true when the character list `p` is an initial run of
`l`; this is the character-level meaning of JavaScript `l.startsWith(p)`. -/
def leadsWith : List Char → List Char → Bool
  | [], _ => true
  | _ :: _, [] => false
  | p :: ps, c :: cs => p == c && leadsWith ps cs

/-- JavaScript `s.startsWith(p)`. -/
def jsStartsWith (s p : String) : Bool :=
  leadsWith p.toList s.toList

/-- Value of a list of decimal digit characters (most significant first). -/
def digitsToNat (cs : List Char) : Nat :=
  cs.foldl (fun a c => a * 10 + (c.toNat - 48)) 0

/-- Hexadecimal digit test, for the `0x` branch of JavaScript `parseInt`. -/
def isHexDigit (c : Char) : Bool :=
  c.isDigit || ('a' ≤ c && c ≤ 'f') || ('A' ≤ c && c ≤ 'F')

/-- Value of one hexadecimal digit character. -/
def hexDigitVal (c : Char) : Nat :=
  if c.isDigit then c.toNat - 48
  else if 'a' ≤ c && c ≤ 'f' then c.toNat - 87
  else c.toNat - 55

/-- Value of a list of hexadecimal digit characters. -/
def hexToNat (cs : List Char) : Nat :=
  cs.foldl (fun a c => a * 16 + hexDigitVal c) 0

/-- Core of JavaScript `parseInt(s)` (radix unspecified) after whitespace and
sign handling: either a `0x`/`0X` hexadecimal literal or leading decimal
digits; `NaN` when no digits are found. -/
def jsParseIntCore (cs : List Char) : JSNum :=
  match cs with
  | '0' :: x :: t =>
    if x == 'x' || x == 'X' then
      let hs := t.takeWhile isHexDigit
      if hs.isEmpty then JSNum.nan else JSNum.num (hexToNat hs)
    else
      JSNum.num (digitsToNat (('0' :: x :: t).takeWhile Char.isDigit))
  | _ =>
    let ds := cs.takeWhile Char.isDigit
    if ds.isEmpty then JSNum.nan else JSNum.num (digitsToNat ds)

/-- JavaScript `parseInt(s)` with unspecified radix: skip leading whitespace,
optional sign, then `jsParseIntCore`. -/
def jsParseInt (s : String) : JSNum :=
  let cs := s.toList.dropWhile Char.isWhitespace
  match cs with
  | '+' :: t => jsParseIntCore t
  | '-' :: t => (jsParseIntCore t).neg
  | t => jsParseIntCore t

/-- Longest valid decimal prefix of `cs` as a rational: integer digits,
optional dot, fraction digits.  `NaN` when no digit is present before the
rest of the string diverges from a number.  This is `parseFloat` restricted
to no sign/whitespace/exponent, and is exactly what the source applies to
the `EXTINF` regex capture (a `[\d.]+` string). -/
def parseFloatDigitsDots (cs : List Char) : JSNum :=
  let ip := cs.takeWhile Char.isDigit
  let rest := cs.drop ip.length
  match rest with
  | '.' :: rest2 =>
    let fp := rest2.takeWhile Char.isDigit
    if ip.isEmpty && fp.isEmpty then JSNum.nan
    else JSNum.num ((digitsToNat ip : ℚ) + (digitsToNat fp : ℚ) / 10 ^ fp.length)
  | _ => if ip.isEmpty then JSNum.nan else JSNum.num (digitsToNat ip)

/-- Exponent digits after `e`/`E` in `parseFloat`; an absent/invalid exponent
contributes `0` (JavaScript keeps the longest valid numeric literal). -/
def expDigitsVal (cs : List Char) : Nat :=
  digitsToNat (cs.takeWhile Char.isDigit)

/-- Core of JavaScript `parseFloat` after whitespace and sign handling:
mantissa `digits[.digits]` followed by an optional `e`/`E` exponent. -/
def jsParseFloatCore (cs : List Char) : JSNum :=
  let ip := cs.takeWhile Char.isDigit
  let rest := cs.drop ip.length
  let fr : List Char × List Char :=
    match rest with
    | '.' :: t => (t.takeWhile Char.isDigit, t.drop (t.takeWhile Char.isDigit).length)
    | _ => ([], rest)
  let fp := fr.1
  let r2 := fr.2
  if ip.isEmpty && fp.isEmpty then JSNum.nan
  else
    let mantissa : ℚ := (digitsToNat ip : ℚ) + (digitsToNat fp : ℚ) / 10 ^ fp.length
    let e : ℤ :=
      match r2 with
      | c :: t =>
        if c == 'e' || c == 'E' then
          match t with
          | '+' :: u => (expDigitsVal u : ℤ)
          | '-' :: u => -(expDigitsVal u : ℤ)
          | u => (expDigitsVal u : ℤ)
        else 0
      | [] => 0
    JSNum.num (mantissa * (10 : ℚ) ^ e)

/-- JavaScript `parseFloat(s)`: skip leading whitespace, optional sign, then
`jsParseFloatCore`.  (`Infinity` literals are not modelled; they do not occur
in any input the claims range over.) -/
def jsParseFloat (s : String) : JSNum :=
  let cs := s.toList.dropWhile Char.isWhitespace
  match cs with
  | '+' :: t => jsParseFloatCore t
  | '-' :: t => (jsParseFloatCore t).neg
  | t => jsParseFloatCore t

/-- Character class `[\d.]` of the `EXTINF` regex. -/
def digitOrDot (c : Char) : Bool := c.isDigit || c == '.'

/-- The literal characters of the `#EXTINF:` tag. -/
def extinfTag : List Char := "#EXTINF:".toList

/-- Capture group 1 of the unanchored JavaScript regex
`/#EXTINF:([\d.]+),?(.*)?/` run on a line: the first maximal `[\d.]+` run
that immediately follows an occurrence of `#EXTINF:`; `none` when the regex
does not match anywhere (the engine retries at each start position). -/
def extinfScan : List Char → Option (List Char)
  | [] => none
  | c :: cs =>
    if leadsWith extinfTag (c :: cs) then
      let run := ((c :: cs).drop extinfTag.length).takeWhile digitOrDot
      if run.isEmpty then extinfScan cs else some run
    else extinfScan cs

/-- JavaScript `baseUrl.lastIndexOf('/')`: index of the last `/`, `-1` when
absent. -/
def jsLastIndexOfSlash : List Char → Int
  | [] => -1
  | c :: t =>
    let r := jsLastIndexOfSlash t
    if r = -1 then (if c = '/' then 0 else -1) else r + 1

/-- Function `M3U8Parser.resolveUrl` (videoDownloader.ts lines 146-154): an absolute
`http(s)` reference is kept verbatim; otherwise everything after the last `/`
of the base address is replaced by the reference
(`baseUrl.substring(0, baseUrl.lastIndexOf('/') + 1) + url`). -/
def resolveUrl (url baseUrl : String) : String :=
  if jsStartsWith url "http://" || jsStartsWith url "https://" then url
  else
    String.mk (baseUrl.toList.take (jsLastIndexOfSlash baseUrl.toList + 1).toNat) ++ url

/-- The `M3U8Segment` interface (src/types/index.ts).  The parser always
supplies a title, so `title` is not optional here. -/
structure M3U8Segment where
  duration : JSNum
  uri : String
  title : String
deriving DecidableEq

/-- The `M3U8Playlist` interface (src/types/index.ts). -/
structure M3U8Playlist where
  segments : List M3U8Segment
  totalDuration : JSNum
  targetDuration : JSNum
  version : JSNum
  mediaSequence : JSNum
deriving DecidableEq

/-- How `M3U8Parser.parsePlaylist` can fail: the explicit
`throw new Error('Invalid M3U8 file format')`, or the implicit JavaScript
`TypeError` raised by `lines[0].startsWith(...)` when `lines` is empty
(`lines[0]` is `undefined`). -/
inductive ParseError where
  | formatError : ParseError
  | typeError : ParseError
deriving DecidableEq

/-- The mutable scan state of `parsePlaylist`'s `for` loop. -/
structure ParseState where
  segments : List M3U8Segment
  currentDuration : JSNum
  targetDuration : JSNum
  version : JSNum
  mediaSequence : JSNum
deriving DecidableEq

/-- Initial scan state: `currentDuration = 0`, `targetDuration = 0`,
`version = 1`, `mediaSequence = 0`, no segments. -/
def initState : ParseState :=
  { segments := [], currentDuration := JSNum.num 0, targetDuration := JSNum.num 0,
    version := JSNum.num 1, mediaSequence := JSNum.num 0 }

/-- Split a character list on a separator character, JavaScript
`String.prototype.split` style (`"".split(c) = [""]`, trailing separator
yields a trailing empty field). -/
def splitOnChar (sep : Char) : List Char → List (List Char)
  | [] => [[]]
  | c :: cs =>
    let r := splitOnChar sep cs
    if c = sep then [] :: r
    else
      match r with
      | h :: t => (c :: h) :: t
      | [] => [[c]]

/-- JavaScript `line.split(':')[1]`, defaulting to the empty string when there
is no second field (unreachable under the guards that use it, since the
guarding tags contain `:`). -/
def colonTail (line : String) : String :=
  String.mk ((splitOnChar ':' line.toList).getD 1 [])

/-- The truthiness/segment test of the final branch:
`!line.startsWith('#') && line.length > 0`. -/
def isSegLine (l : String) : Bool :=
  !(jsStartsWith l "#") && decide (0 < l.length)

/-- One iteration of the `for` loop of `parsePlaylist`
(videoDownloader.ts lines 112-133), acting on the scan state. -/
def parseStep (baseUrl : String) (st : ParseState) (line : String) : ParseState :=
  if jsStartsWith line "#EXT-X-VERSION:" then
    { st with version := jsParseInt (colonTail line) }
  else if jsStartsWith line "#EXT-X-TARGETDURATION:" then
    { st with targetDuration := jsParseFloat (colonTail line) }
  else if jsStartsWith line "#EXT-X-MEDIA-SEQUENCE:" then
    { st with mediaSequence := jsParseInt (colonTail line) }
  else if jsStartsWith line "#EXTINF:" then
    match extinfScan line.toList with
    | some run => { st with currentDuration := parseFloatDigitsDots run }
    | none => st
  else if isSegLine line then
    { st with
      segments := st.segments ++
        [{ duration := st.currentDuration, uri := resolveUrl line baseUrl,
           title := "Segment " ++ toString (st.segments.length + 1) }],
      currentDuration := JSNum.num 0 }
  else st

/-- JavaScript `String.prototype.trim` on a character list (both ends). -/
def jsTrim (cs : List Char) : List Char :=
  ((cs.dropWhile Char.isWhitespace).reverse.dropWhile Char.isWhitespace).reverse

/-- The preprocessing of `parsePlaylist`:
`content.split('\n').map(line => line.trim()).filter(line => line)`. -/
def preprocessLines (content : String) : List String :=
  ((splitOnChar '\n' content.toList).map (fun l => String.mk (jsTrim l))).filter
    (fun l => l != "")

/-- The whole `for` loop of `parsePlaylist` over the surviving lines. -/
def parseAllLines (baseUrl : String) (lines : List String) : ParseState :=
  lines.foldl (parseStep baseUrl) initState

/-- The `totalDuration` computation:
`segments.reduce((sum, segment) => sum + segment.duration, 0)`. -/
def sumDurations (segs : List M3U8Segment) : JSNum :=
  segs.foldl (fun a s => JSNum.add a s.duration) (JSNum.num 0)

/-- Function `M3U8Parser.parsePlaylist` (videoDownloader.ts lines 96-143). -/
def parsePlaylist (content baseUrl : String) : Except ParseError M3U8Playlist :=
  let lines := preprocessLines content
  if lines.isEmpty then Except.error ParseError.typeError
  else if !(jsStartsWith (lines.headD "") "#EXTM3U") then Except.error ParseError.formatError
  else
    let st := parseAllLines baseUrl lines
    Except.ok
      { segments := st.segments, totalDuration := sumDurations st.segments,
        targetDuration := st.targetDuration, version := st.version,
        mediaSequence := st.mediaSequence }


/-! ## The download pipeline (`VideoDownloader.downloadM3U8`)

The pipeline performs network I/O through `fetch`; we model the network by an
oracle `fetch : Nat → FetchOutcome` giving the outcome of the fetch of the
`i`-th segment (0-based), and the shared `AbortController` signal by
`cancelled : Nat → Bool`, the value of `signal.aborted` observed at the
cancellation check preceding iteration `i`.  Byte buffers (`Uint8Array`) are
`List Nat`.  Progress percentages `Math.round(((i+1)/N)*100)` are modelled by
the exact integer rounding of the rational ratio (see `jsRoundPct`). -/

/-- Outcome of one segment fetch: a successful body, a non-abort failure
(network error or the `!response.ok` throw — both take the same inner-catch
path), or an `AbortError` from the cancellation signal firing mid-flight. -/
inductive FetchOutcome where
  | ok : List Nat → FetchOutcome
  | fail : FetchOutcome
  | aborted : FetchOutcome
deriving DecidableEq

/-- How a pipeline run ends: the assembled byte buffer (the `Blob` contents),
the `'Download cancelled'` error, or the rethrown segment failure, which the
code reports with the failing segment's 1-based index via `onError`. -/
inductive RunOutcome where
  | success : List Nat → RunOutcome
  | cancelled : RunOutcome
  | segmentFailed : Nat → RunOutcome
deriving DecidableEq

/-- A `DownloadProgress` record (src/types/index.ts) as produced by the
pipeline. -/
structure DownloadProgress where
  segmentIndex : Nat
  totalSegments : Nat
  downloadedBytes : Nat
  totalBytes : Nat
  percentage : Nat
deriving DecidableEq

/-- Rounding `Math.round(((k / n)) * 100)` for `0 ≤ k ≤ n`, computed on the exact
rational ratio: `⌊100·k/n + 1/2⌋ = (200·k + n) / (2·n)` in natural-number
division.  (The source computes the ratio in IEEE doubles; the boundary
values the claims speak about — 0 and 100 — are exact there, and the rounded
sequence is monotone in either semantics.) -/
def jsRoundPct (k n : Nat) : Nat := (200 * k + n) / (2 * n)

/-- The mutable state accumulated across loop iterations of `downloadM3U8`:
emitted progress events, `onError` reports (as 1-based failing indices),
number of `fetch` calls started, the `segments` array of fetched buffers, and
the `downloadedBytes` / `totalBytes` counters. -/
structure Accum where
  events : List DownloadProgress
  errs : List Nat
  calls : Nat
  buffers : List (List Nat)
  downloadedBytes : Nat
  totalBytes : Nat
deriving DecidableEq

/-- The observable trace of one `downloadM3U8` run. -/
structure RunTrace where
  events : List DownloadProgress
  errs : List Nat
  calls : Nat
  outcome : RunOutcome
deriving DecidableEq

/-- The progress event emitted after segment `i` (0-based) completes
(videoDownloader.ts lines 49-55). -/
def segEvent (n i db tb : Nat) : DownloadProgress :=
  { segmentIndex := i + 1, totalSegments := n, downloadedBytes := db,
    totalBytes := tb, percentage := jsRoundPct (i + 1) n }

/-- The accumulator update of a successful iteration: push the buffer, bump
both byte counters by its length, emit the progress event, count the call. -/
def accStep (n : Nat) (bytes : List Nat) (i : Nat) (acc : Accum) : Accum :=
  { events := acc.events ++
      [segEvent n i (acc.downloadedBytes + bytes.length) (acc.totalBytes + bytes.length)],
    errs := acc.errs, calls := acc.calls + 1,
    buffers := acc.buffers ++ [bytes],
    downloadedBytes := acc.downloadedBytes + bytes.length,
    totalBytes := acc.totalBytes + bytes.length }

/-- The `for` loop of `downloadM3U8` (videoDownloader.ts lines 26-65) plus the
final concatenation (lines 67-77): check the cancellation signal, fetch, on
success accumulate and continue, and after the last segment concatenate the
ordered buffers.  An `AbortError` surfaces as `'Download cancelled'` through
the outer catch; any other failure is reported to `onError` with the 1-based
index and rethrown. -/
def runLoop (fetch : Nat → FetchOutcome) (cancelled : Nat → Bool) (n : Nat) :
    List M3U8Segment → Nat → Accum → RunTrace
  | [], _, acc => ⟨acc.events, acc.errs, acc.calls, RunOutcome.success acc.buffers.flatten⟩
  | _ :: rest, i, acc =>
    if cancelled i then ⟨acc.events, acc.errs, acc.calls, RunOutcome.cancelled⟩
    else
      match fetch i with
      | FetchOutcome.aborted => ⟨acc.events, acc.errs, acc.calls + 1, RunOutcome.cancelled⟩
      | FetchOutcome.fail =>
        ⟨acc.events, acc.errs ++ [i + 1], acc.calls + 1, RunOutcome.segmentFailed (i + 1)⟩
      | FetchOutcome.ok bytes => runLoop fetch cancelled n rest (i + 1) (accStep n bytes i acc)

/-- Function `VideoDownloader.downloadM3U8`: emit the zeroed initial progress event
(videoDownloader.ts lines 18-24), then run the loop from segment 0 with empty
accumulators. -/
def downloadM3U8 (segs : List M3U8Segment) (fetch : Nat → FetchOutcome)
    (cancelled : Nat → Bool) : RunTrace :=
  runLoop fetch cancelled segs.length segs 0
    ⟨[{ segmentIndex := 0, totalSegments := segs.length, downloadedBytes := 0,
        totalBytes := 0, percentage := 0 }], [], 0, [], 0, 0⟩

/-- Cumulative byte count of buffers `bs i, bs (i+1), ..., bs (i+m-1)`. -/
def bytesFrom (bs : Nat → List Nat) (i m : Nat) : Nat :=
  ((List.range m).map fun t => (bs (i + t)).length).sum

/-- The accumulator after `m` consecutive successful iterations starting at
segment `i`, when the fetched buffers are given by `bs`. -/
def accAfter (n : Nat) (bs : Nat → List Nat) (i m : Nat) (acc : Accum) : Accum :=
  { events := acc.events ++ (List.range m).map (fun j =>
      segEvent n (i + j) (acc.downloadedBytes + bytesFrom bs i (j + 1))
        (acc.totalBytes + bytesFrom bs i (j + 1))),
    errs := acc.errs,
    calls := acc.calls + m,
    buffers := acc.buffers ++ (List.range m).map (fun j => bs (i + j)),
    downloadedBytes := acc.downloadedBytes + bytesFrom bs i m,
    totalBytes := acc.totalBytes + bytesFrom bs i m }

/-! ## Concrete example inputs

`exContent`/`exBase` are the end-to-end example of the specification.
`exPl` is the playlist `parsePlaylist` produces for them; it is defined by
extraction so that hypotheses of the form `parsePlaylist … = .ok exPl` are
discharged by `rfl` (the rational duration values inside are irreducible to
`decide`, but the construction never needs to normalise them). -/

/-- The example base address of the specification. -/
def exBase : String := "https://host/path/index.m3u8"

/-- The example playlist text of the specification. -/
def exContent : String :=
  "#EXTM3U\n#EXT-X-VERSION:3\n#EXTINF:9.5,\nseg1.ts\n#EXTINF:9.5,\nseg2.ts\n"

/-- The playlist parsed from the example input. -/
def exPl : M3U8Playlist :=
  (parsePlaylist exContent exBase).toOption.getD
    ⟨[], JSNum.nan, JSNum.nan, JSNum.nan, JSNum.nan⟩

/-- Malformed-duration counterexample input: the `#EXTINF:.,` line matches the
regex (`.` is in `[\d.]`) but `parseFloat(".")` is `NaN`. -/
def c9badContent : String := "#EXTM3U\n#EXTINF:5,\n#EXTINF:.,\nseg.ts"

/-- The same input with the malformed duration line absent. -/
def c9goodContent : String := "#EXTM3U\n#EXTINF:5,\nseg.ts"

/-- Two-segment playlist for concrete download runs. -/
def exSegs2 : List M3U8Segment :=
  [⟨JSNum.num 1, "u1", "t1"⟩, ⟨JSNum.num 1, "u2", "t2"⟩]

/-- Three-segment playlist for the failing-fetch run. -/
def exSegs3 : List M3U8Segment :=
  [⟨JSNum.num 1, "u1", "t1"⟩, ⟨JSNum.num 1, "u2", "t2"⟩, ⟨JSNum.num 1, "u3", "t3"⟩]

/-- Fetch oracle delivering `[1,2]` then `[3]`. -/
def exFetch2 : Nat → FetchOutcome :=
  fun i => if i = 0 then FetchOutcome.ok [1, 2] else FetchOutcome.ok [3]

/-- The byte buffers of `exFetch2`. -/
def exBytes2 : Nat → List Nat := fun i => if i = 0 then [1, 2] else [3]

/-- Fetch oracle that succeeds on segment 0 and fails on segment 1. -/
def exFetchFail : Nat → FetchOutcome :=
  fun i => if i = 0 then FetchOutcome.ok [5] else FetchOutcome.fail

/-- The buffers delivered by `exFetchFail` before it fails. -/
def exBytesFail : Nat → List Nat := fun _ => [5]

/-- A cancellation signal that never fires. -/
def neverCancel : Nat → Bool := fun _ => false

/-- A cancellation signal already set at the first boundary check. -/
def alwaysCancel : Nat → Bool := fun _ => true


/-! ## Helper lemmas about the character-level primitives -/

theorem leadsWith_iff (p : List Char) :
    ∀ l : List Char, leadsWith p l = true ↔ ∃ t, l = p ++ t := by
  induction p with
  | nil => intro l; simp [leadsWith]
  | cons c cs ih =>
    intro l
    cases l with
    | nil => simp [leadsWith]
    | cons x xs =>
      simp only [leadsWith, Bool.and_eq_true, beq_iff_eq, ih xs, List.cons_append]
      constructor
      · rintro ⟨rfl, t, rfl⟩; exact ⟨t, rfl⟩
      · rintro ⟨t, h⟩
        injection h with h1 h2
        exact ⟨h1.symm, t, h2⟩

theorem jsStartsWith_hash_of_tag {l : String} {tag : String}
    (h : jsStartsWith l tag = true)
    (hc : tag.toList = '#' :: (tag.toList.drop 1)) : jsStartsWith l "#" = true := by
  unfold jsStartsWith at h ⊢
  rw [leadsWith_iff] at h ⊢
  obtain ⟨t, ht⟩ := h
  rw [hc] at ht
  exact ⟨tag.toList.drop 1 ++ t, by simpa using ht⟩

theorem isSegLine_false_of_hash {l : String} (h : jsStartsWith l "#" = true) :
    isSegLine l = false := by
  simp [isSegLine, h]

/-- A line that starts with `#EXTINF:` starts with none of the three other
recognised tags (they diverge from `#EXTINF:` within the first five
characters). -/
theorem extinf_not_other_tags {l : String} (h : jsStartsWith l "#EXTINF:" = true) :
    jsStartsWith l "#EXT-X-VERSION:" = false ∧
    jsStartsWith l "#EXT-X-TARGETDURATION:" = false ∧
    jsStartsWith l "#EXT-X-MEDIA-SEQUENCE:" = false := by
  unfold jsStartsWith at h ⊢
  rw [leadsWith_iff] at h
  obtain ⟨t, ht⟩ := h
  rw [ht]
  exact ⟨rfl, rfl, rfl⟩

/-! ## Behaviour of one parser step -/

/-- Only the segment branch of the loop body touches `segments`, and it
appends exactly one segment built from the pending duration, the resolved
address and the 1-based ordinal title. -/
theorem parseStep_segments (baseUrl : String) (st : ParseState) (line : String) :
    (parseStep baseUrl st line).segments =
      if isSegLine line then
        st.segments ++
          [{ duration := st.currentDuration, uri := resolveUrl line baseUrl,
             title := "Segment " ++ toString (st.segments.length + 1) }]
      else st.segments := by
  by_cases h1 : jsStartsWith line "#EXT-X-VERSION:" = true
  · simp [parseStep, h1, isSegLine_false_of_hash (jsStartsWith_hash_of_tag h1 rfl)]
  · by_cases h2 : jsStartsWith line "#EXT-X-TARGETDURATION:" = true
    · simp [parseStep, h1, h2, isSegLine_false_of_hash (jsStartsWith_hash_of_tag h2 rfl)]
    · by_cases h3 : jsStartsWith line "#EXT-X-MEDIA-SEQUENCE:" = true
      · simp [parseStep, h1, h2, h3, isSegLine_false_of_hash (jsStartsWith_hash_of_tag h3 rfl)]
      · by_cases h4 : jsStartsWith line "#EXTINF:" = true
        · cases hscan : extinfScan line.toList with
          | none =>
            have hscan2 : extinfScan line.data = none := hscan
            simp [parseStep, h1, h2, h3, h4, hscan, hscan2,
              isSegLine_false_of_hash (jsStartsWith_hash_of_tag h4 rfl)]
          | some run =>
            have hscan2 : extinfScan line.data = some run := hscan
            simp [parseStep, h1, h2, h3, h4, hscan, hscan2,
              isSegLine_false_of_hash (jsStartsWith_hash_of_tag h4 rfl)]
        · by_cases h5 : isSegLine line = true
          · simp [parseStep, h1, h2, h3, h4, h5]
          · simp [parseStep, h1, h2, h3, h4, h5]

/-- A malformed `#EXTINF:` line (the regex fails to match) is a no-op on the
whole scan state. -/
theorem parseStep_extinf_noMatch (baseUrl : String) (st : ParseState) {line : String}
    (h : jsStartsWith line "#EXTINF:" = true) (hscan : extinfScan line.toList = none) :
    parseStep baseUrl st line = st := by
  obtain ⟨o1, o2, o3⟩ := extinf_not_other_tags h
  have hscan2 : extinfScan line.data = none := hscan
  simp [parseStep, o1, o2, o3, h, hscan, hscan2]

/-! ## The fold over all lines -/

/-- The addresses of the parsed segments are exactly the resolved segment
lines, in input order. -/
theorem foldl_segments_uri (baseUrl : String) :
    ∀ (lines : List String) (st : ParseState),
      ((lines.foldl (parseStep baseUrl) st).segments).map (fun s => s.uri) =
        st.segments.map (fun s => s.uri) ++
          (lines.filter isSegLine).map (fun l => resolveUrl l baseUrl) := by
  intro lines
  induction lines with
  | nil => intro st; simp
  | cons l tl ih =>
    intro st
    rw [List.foldl_cons, ih]
    by_cases h : isSegLine l = true
    · rw [parseStep_segments]
      simp [h]
    · rw [parseStep_segments]
      simp [h]

/-- Titles of already-accumulated segments are preserved and extended by the
default ordinal title: if every accumulated segment is titled by its 1-based
position, the same holds after scanning any further lines. -/
theorem foldl_segments_title (baseUrl : String) :
    ∀ (lines : List String) (st : ParseState),
      (∀ k (hk : k < st.segments.length),
          (st.segments[k]).title = "Segment " ++ toString (k + 1)) →
      ∀ k (hk : k < ((lines.foldl (parseStep baseUrl) st).segments).length),
        (((lines.foldl (parseStep baseUrl) st).segments)[k]).title =
          "Segment " ++ toString (k + 1) := by
  intro lines
  induction lines with
  | nil => intro st h; simpa using h
  | cons l tl ih =>
    intro st h
    rw [List.foldl_cons]
    apply ih
    intro k hk
    simp only [parseStep_segments] at hk ⊢
    by_cases hseg : isSegLine l = true
    · simp only [hseg, if_true] at hk ⊢
      rcases Nat.lt_or_ge k st.segments.length with hlt | hge
      · rw [List.getElem_append_left hlt]
        exact h k hlt
      · have hk' : k < st.segments.length + 1 := by
          simpa using hk
        have hkeq : k = st.segments.length := by omega
        subst hkeq
        rw [List.getElem_append_right hge]
        simp
    · simp only [hseg, if_false] at hk ⊢
      exact h k hk

/-- Whenever `parsePlaylist` succeeds, its output fields are those of the
final scan state over the preprocessed lines, with `totalDuration` computed
by `sumDurations`. -/
theorem parsePlaylist_ok_shape {content baseUrl : String} {pl : M3U8Playlist}
    (h : parsePlaylist content baseUrl = Except.ok pl) :
    pl.segments = (parseAllLines baseUrl (preprocessLines content)).segments ∧
    pl.totalDuration =
      sumDurations (parseAllLines baseUrl (preprocessLines content)).segments := by
  simp only [parsePlaylist] at h
  split at h
  · exact absurd h (by simp)
  · split at h
    · exact absurd h (by simp)
    · injection h with h
      subst h
      exact ⟨rfl, rfl⟩

/-! ## JSNum arithmetic facts -/

theorem JSNum.add_num_zero (a : JSNum) : JSNum.add a (JSNum.num 0) = a := by
  cases a with
  | nan => rfl
  | num q => simp [JSNum.add]

theorem JSNum.addAssoc (a b c : JSNum) :
    JSNum.add (JSNum.add a b) c = JSNum.add a (JSNum.add b c) := by
  cases a <;> cases b <;> cases c <;> (simp [JSNum.add]; try ring)

/-- The left fold the source uses for `totalDuration` agrees with the plain
right-fold sum of the duration fields. -/
theorem sumDurations_eq_foldr (l : List M3U8Segment) :
    sumDurations l = (l.map (fun s => s.duration)).foldr JSNum.add (JSNum.num 0) := by
  have key : ∀ (l : List M3U8Segment) (a : JSNum),
      l.foldl (fun x s => JSNum.add x s.duration) a =
        JSNum.add a ((l.map (fun s => s.duration)).foldr JSNum.add (JSNum.num 0)) := by
    intro l
    induction l with
    | nil => intro a; simp [JSNum.add_num_zero]
    | cons s tl ih =>
      intro a
      simp only [List.foldl_cons, List.map_cons, List.foldr_cons, ih, JSNum.addAssoc]
  have h0 : JSNum.add (JSNum.num 0) ((l.map (fun s => s.duration)).foldr JSNum.add (JSNum.num 0)) =
      (l.map (fun s => s.duration)).foldr JSNum.add (JSNum.num 0) := by
    cases (l.map (fun s => s.duration)).foldr JSNum.add (JSNum.num 0) with
    | nan => rfl
    | num q => simp [JSNum.add]
  rw [sumDurations, key, h0]

/-! ## Address resolution facts -/

theorem jsLastIndexOfSlash_of_not_mem {l : List Char} (h : '/' ∉ l) :
    jsLastIndexOfSlash l = -1 := by
  induction l with
  | nil => rfl
  | cons c t ih =>
    have hc : ¬ c = '/' := fun hc => h (hc ▸ List.mem_cons_self c t)
    have ht : '/' ∉ t := fun hm => h (List.mem_cons_of_mem c hm)
    simp [jsLastIndexOfSlash, ih ht, hc]

theorem jsLastIndexOfSlash_append_last {suf : List Char} (h : '/' ∉ suf) :
    ∀ pre : List Char, jsLastIndexOfSlash (pre ++ '/' :: suf) = (pre.length : Int) := by
  intro pre
  induction pre with
  | nil => simp [jsLastIndexOfSlash, jsLastIndexOfSlash_of_not_mem h]
  | cons p ps ih =>
    simp only [List.cons_append, jsLastIndexOfSlash, List.append_eq, List.length_cons]
    rw [ih]
    have hne : ¬ (ps.length : Int) = -1 := by omega
    rw [if_neg hne]
    push_cast
    ring

theorem take_after_last_slash (pre suf : List Char) :
    (pre ++ '/' :: suf).take (pre.length + 1) = pre ++ ['/'] := by
  induction pre with
  | nil => simp
  | cons p ps ih => simp [List.take_cons, ih]

/-! ## The download loop under consecutive successful fetches -/

theorem bytesFrom_one (bs : Nat → List Nat) (i : Nat) : bytesFrom bs i 1 = (bs i).length := by
  simp [bytesFrom, List.range_succ]

/-- Splitting a mapped `range (m+1)` into its head and the shifted tail. -/
theorem range_map_shift {α : Type} (f : Nat → α) (m : Nat) :
    (List.range (m + 1)).map f = f 0 :: (List.range m).map (fun j => f (j + 1)) := by
  rw [List.range_succ_eq_map, List.map_cons, List.map_map]
  rfl

theorem bytesFrom_succ (bs : Nat → List Nat) (i m : Nat) :
    bytesFrom bs i (m + 1) = (bs i).length + bytesFrom bs (i + 1) m := by
  unfold bytesFrom
  rw [range_map_shift, List.sum_cons]
  show (bs (i + 0)).length + ((List.range m).map fun j => (bs (i + (j + 1))).length).sum =
    (bs i).length + ((List.range m).map fun t => (bs (i + 1 + t)).length).sum
  have ht : (List.range m).map (fun t => (bs (i + (t + 1))).length) =
      (List.range m).map (fun t => (bs (i + 1 + t)).length) := by
    apply List.map_congr_left
    intro a _
    rw [show i + (a + 1) = i + 1 + a from by omega]
  rw [ht, Nat.add_zero]

/-- Absorbing one successful iteration into the `accAfter` closed form. -/
theorem accAfter_stepEq (n : Nat) (bs : Nat → List Nat) (i m : Nat) (acc : Accum) :
    accAfter n bs (i + 1) m (accStep n (bs i) i acc) = accAfter n bs i (m + 1) acc := by
  have hev : (acc.events ++
      [segEvent n i (acc.downloadedBytes + (bs i).length) (acc.totalBytes + (bs i).length)]) ++
        (List.range m).map (fun j =>
          segEvent n (i + 1 + j)
            (acc.downloadedBytes + (bs i).length + bytesFrom bs (i + 1) (j + 1))
            (acc.totalBytes + (bs i).length + bytesFrom bs (i + 1) (j + 1))) =
      acc.events ++ (List.range (m + 1)).map (fun j =>
        segEvent n (i + j) (acc.downloadedBytes + bytesFrom bs i (j + 1))
          (acc.totalBytes + bytesFrom bs i (j + 1))) := by
    rw [List.append_assoc, range_map_shift, List.singleton_append]
    apply congrArg
    congr 1
    apply List.map_congr_left
    intro j _
    rw [show i + (j + 1) = i + 1 + j from by omega, bytesFrom_succ bs i (j + 1)]
    simp only [Nat.add_assoc]
  have hbuf : (acc.buffers ++ [bs i]) ++ (List.range m).map (fun j => bs (i + 1 + j)) =
      acc.buffers ++ (List.range (m + 1)).map (fun j => bs (i + j)) := by
    rw [List.append_assoc, range_map_shift, List.singleton_append]
    apply congrArg
    congr 1
    apply List.map_congr_left
    intro j _
    rw [show i + (j + 1) = i + 1 + j from by omega]
  have hdb : acc.downloadedBytes + (bs i).length + bytesFrom bs (i + 1) m =
      acc.downloadedBytes + bytesFrom bs i (m + 1) := by
    rw [bytesFrom_succ]; omega
  have htb : acc.totalBytes + (bs i).length + bytesFrom bs (i + 1) m =
      acc.totalBytes + bytesFrom bs i (m + 1) := by
    rw [bytesFrom_succ]; omega
  have hcalls : acc.calls + 1 + m = acc.calls + (m + 1) := by omega
  unfold accAfter accStep
  simp only [hev, hbuf, hdb, htb, hcalls]

/-- As long as the cancellation signal stays clear and every fetch succeeds,
the loop advances `m` segments, transforming the accumulator by `accAfter`. -/
theorem runLoop_okSteps (fetch : Nat → FetchOutcome) (cancelled : Nat → Bool)
    (n : Nat) (bs : Nat → List Nat) :
    ∀ (m : Nat) (rest : List M3U8Segment) (i : Nat) (acc : Accum),
      m ≤ rest.length →
      (∀ j, j < m → cancelled (i + j) = false ∧ fetch (i + j) = FetchOutcome.ok (bs (i + j))) →
      runLoop fetch cancelled n rest i acc =
        runLoop fetch cancelled n (rest.drop m) (i + m) (accAfter n bs i m acc) := by
  intro m
  induction m with
  | zero =>
    intro rest i acc _ _
    simp [accAfter, bytesFrom]
  | succ m ih =>
    intro rest i acc hle h
    cases rest with
    | nil => simp at hle
    | cons s rest' =>
      have hc : cancelled i = false := by
        have h0 := (h 0 (Nat.succ_pos m)).1; simpa using h0
      have hf : fetch i = FetchOutcome.ok (bs i) := by
        have h0 := (h 0 (Nat.succ_pos m)).2; simpa using h0
      have hshift : ∀ j, j < m →
          cancelled (i + 1 + j) = false ∧ fetch (i + 1 + j) = FetchOutcome.ok (bs (i + 1 + j)) := by
        intro j hj
        have h2 := h (j + 1) (by omega)
        rwa [show i + (j + 1) = i + 1 + j from by omega] at h2
      calc runLoop fetch cancelled n (s :: rest') i acc
          = runLoop fetch cancelled n rest' (i + 1) (accStep n (bs i) i acc) := by
            simp only [runLoop, hc, Bool.false_eq_true, if_false, hf]
        _ = runLoop fetch cancelled n (rest'.drop m) (i + 1 + m)
              (accAfter n bs (i + 1) m (accStep n (bs i) i acc)) :=
            ih rest' (i + 1) (accStep n (bs i) i acc) (by simpa using hle) hshift
        _ = runLoop fetch cancelled n ((s :: rest').drop (m + 1)) (i + (m + 1))
              (accAfter n bs i (m + 1) acc) := by
            rw [accAfter_stepEq, List.drop_succ_cons,
              show i + 1 + m = i + (m + 1) from by omega]

/-- A run in which every remaining fetch succeeds: full closed form. -/
theorem runLoop_okAll (fetch : Nat → FetchOutcome) (cancelled : Nat → Bool)
    (n : Nat) (bs : Nat → List Nat) (rest : List M3U8Segment) (i : Nat) (acc : Accum)
    (h : ∀ j, j < rest.length →
      cancelled (i + j) = false ∧ fetch (i + j) = FetchOutcome.ok (bs (i + j))) :
    runLoop fetch cancelled n rest i acc =
      ⟨(accAfter n bs i rest.length acc).events, acc.errs, acc.calls + rest.length,
        RunOutcome.success
          ((acc.buffers ++ (List.range rest.length).map fun j => bs (i + j)).flatten)⟩ := by
  rw [runLoop_okSteps fetch cancelled n bs rest.length rest i acc (Nat.le_refl _) h,
    List.drop_length]
  rfl

/-! ## Claim theorems: the parser -/

/-- C1: for every input text whose first trimmed non-blank line starts with
`#EXTM3U`, `parsePlaylist` succeeds and returns a playlist with exactly one
segment per non-comment, non-blank (trimmed) line of the input, in the same
relative order (witnessed by the resolved addresses). -/
theorem claim_C1 (content baseUrl first : String) (rest : List String)
    (hl : preprocessLines content = first :: rest)
    (hh : jsStartsWith first "#EXTM3U" = true) :
    ∃ pl, parsePlaylist content baseUrl = Except.ok pl ∧
      pl.segments.length = ((preprocessLines content).filter isSegLine).length ∧
      pl.segments.map (fun s => s.uri) =
        ((preprocessLines content).filter isSegLine).map (fun l => resolveUrl l baseUrl) := by
  have hne : (preprocessLines content).isEmpty = false := by rw [hl]; rfl
  have hhd : jsStartsWith ((preprocessLines content).headD "") "#EXTM3U" = true := by
    rw [hl]; exact hh
  have huri : ((parseAllLines baseUrl (preprocessLines content)).segments).map (fun s => s.uri) =
      ((preprocessLines content).filter isSegLine).map (fun l => resolveUrl l baseUrl) := by
    have h0 := foldl_segments_uri baseUrl (preprocessLines content) initState
    simpa [parseAllLines, initState] using h0
  have hok : parsePlaylist content baseUrl = Except.ok
      { segments := (parseAllLines baseUrl (preprocessLines content)).segments,
        totalDuration := sumDurations (parseAllLines baseUrl (preprocessLines content)).segments,
        targetDuration := (parseAllLines baseUrl (preprocessLines content)).targetDuration,
        version := (parseAllLines baseUrl (preprocessLines content)).version,
        mediaSequence := (parseAllLines baseUrl (preprocessLines content)).mediaSequence } := by
    simp only [parsePlaylist, hne, hhd, Bool.not_true, Bool.false_eq_true, if_false]
  refine ⟨_, hok, ?_, huri⟩
  have hlen := congrArg List.length huri
  simpa using hlen

/-- C1 witness: the specification's end-to-end example input satisfies the
hypotheses of `claim_C1`. -/
theorem claim_C1_witness :
    ∃ pl, parsePlaylist exContent exBase = Except.ok pl ∧
      pl.segments.length = ((preprocessLines exContent).filter isSegLine).length ∧
      pl.segments.map (fun s => s.uri) =
        ((preprocessLines exContent).filter isSegLine).map (fun l => resolveUrl l exBase) :=
  claim_C1 exContent exBase "#EXTM3U"
    ["#EXT-X-VERSION:3", "#EXTINF:9.5,", "seg1.ts", "#EXTINF:9.5,", "seg2.ts"]
    (by decide) (by decide)

/-- C6: the claim says an input with no usable header always fails with the
format error.  That is true when at least one trimmed non-blank line exists
(second conjunct), but an input with no non-blank line at all crashes in
`lines[0].startsWith` with a JavaScript `TypeError` instead (first conjunct):
the code, not the claim, is at fault there. -/
theorem claim_C6_bug :
    parsePlaylist "" "https://host/path/index.m3u8" = Except.error ParseError.typeError ∧
    parsePlaylist " \n  \n" "https://host/path/index.m3u8" = Except.error ParseError.typeError ∧
    parsePlaylist "notaheader\nseg.ts" "https://host/path/index.m3u8" =
      Except.error ParseError.formatError :=
  ⟨rfl, rfl, rfl⟩

/-- C7: segment references that are already absolute `http`/`https` addresses
resolve to themselves; any other reference is appended to the base address
truncated just after its last `/`. -/
theorem claim_C7 (url baseUrl : String) :
    ((jsStartsWith url "http://" = true ∨ jsStartsWith url "https://" = true) →
      resolveUrl url baseUrl = url) ∧
    (jsStartsWith url "http://" = false → jsStartsWith url "https://" = false →
      ∀ pre suf : List Char, baseUrl.toList = pre ++ '/' :: suf → '/' ∉ suf →
        resolveUrl url baseUrl = String.mk (pre ++ ['/']) ++ url) := by
  constructor
  · intro h
    unfold resolveUrl
    rcases h with h | h <;> simp [h]
  · intro h1 h2 pre suf hsplit hnm
    unfold resolveUrl
    rw [h1, h2]
    simp only [Bool.or_self, Bool.false_eq_true, if_false]
    rw [hsplit, jsLastIndexOfSlash_append_last hnm]
    have htn : ((pre.length : Int) + 1).toNat = pre.length + 1 := by omega
    rw [htn, take_after_last_slash]

/-- C7 witness: both branches at the example addresses. -/
theorem claim_C7_witness :
    resolveUrl "http://cdn/a.ts" "https://host/path/index.m3u8" = "http://cdn/a.ts" ∧
    resolveUrl "seg1.ts" "https://host/path/index.m3u8" = "https://host/path/seg1.ts" := by
  constructor
  · exact (claim_C7 "http://cdn/a.ts" "https://host/path/index.m3u8").1 (Or.inl (by decide))
  · have h := (claim_C7 "seg1.ts" "https://host/path/index.m3u8").2 (by decide) (by decide)
      ("https://host/path".toList) ("index.m3u8".toList) (by decide) (by decide)
    exact h.trans (by decide)

/-- C8: every successfully parsed playlist satisfies the invariant that
`totalDuration` is the sum of its segments' durations. -/
theorem claim_C8 (content baseUrl : String) (pl : M3U8Playlist)
    (h : parsePlaylist content baseUrl = Except.ok pl) :
    pl.totalDuration = (pl.segments.map (fun s => s.duration)).foldr JSNum.add (JSNum.num 0) := by
  obtain ⟨hseg, htot⟩ := parsePlaylist_ok_shape h
  rw [htot, ← hseg, sumDurations_eq_foldr]

/-- C8 witness: the invariant at the specification's example playlist. -/
theorem claim_C8_witness :
    exPl.totalDuration = (exPl.segments.map (fun s => s.duration)).foldr JSNum.add (JSNum.num 0) :=
  claim_C8 exContent exBase exPl rfl

/-- C9 counterexample: the line `#EXTINF:.,` has a duration value (`.`) that
does not parse as a number, yet it does **not** leave the pending duration
unchanged — the segment that follows it gets `NaN` instead of the pending
`5` it receives when the malformed line is absent. -/
theorem claim_C9_counterexample :
    (parsePlaylist c9badContent exBase).toOption.map
        (fun pl => pl.segments.map (fun s => s.duration)) = some [JSNum.nan] ∧
    (parsePlaylist c9goodContent exBase).toOption.map
        (fun pl => pl.segments.map (fun s => s.duration)) = some [JSNum.num 5] ∧
    JSNum.nan ≠ JSNum.num 5 :=
  ⟨rfl, rfl, fun h => JSNum.noConfusion h⟩

/-- C9 (amended): a `#EXTINF:` line on which the duration regex fails to
match (no digit-or-dot character after any occurrence of the tag) is a no-op:
parsing with the line present equals parsing with it absent.  (A line whose
matched value still parses to `NaN`, such as `#EXTINF:.`, instead overwrites
the pending duration with `NaN` — see the counterexample.) -/
theorem claim_C9_amended (baseUrl : String) (pre post : List String) (bad : String)
    (h1 : jsStartsWith bad "#EXTINF:" = true) (h2 : extinfScan bad.toList = none) :
    parseAllLines baseUrl (pre ++ bad :: post) = parseAllLines baseUrl (pre ++ post) := by
  unfold parseAllLines
  rw [List.foldl_append, List.foldl_append, List.foldl_cons,
    parseStep_extinf_noMatch baseUrl _ h1 h2]

/-- C9 witness: dropping the unmatchable line `#EXTINF:abc` does not change
the parse. -/
theorem claim_C9_witness :
    parseAllLines exBase (["#EXTM3U", "#EXTINF:7,"] ++ "#EXTINF:abc" :: ["seg.ts"]) =
      parseAllLines exBase (["#EXTM3U", "#EXTINF:7,"] ++ ["seg.ts"]) :=
  claim_C9_amended exBase ["#EXTM3U", "#EXTINF:7,"] ["seg.ts"] "#EXTINF:abc"
    (by decide) (by decide)

/-- C10: in every successfully parsed playlist the k-th segment (1-based) is
titled `Segment k`; the text after the comma of the preceding `#EXTINF:` line
is never used. -/
theorem claim_C10 (content baseUrl : String) (pl : M3U8Playlist)
    (h : parsePlaylist content baseUrl = Except.ok pl) :
    ∀ k (hk : k < pl.segments.length),
      (pl.segments[k]).title = "Segment " ++ toString (k + 1) := by
  obtain ⟨hseg, _⟩ := parsePlaylist_ok_shape h
  intro k hk
  have hk2 : k < ((parseAllLines baseUrl (preprocessLines content)).segments).length := by
    rw [← hseg]; exact hk
  have hbase : ∀ k (hk : k < (initState.segments).length),
      ((initState.segments)[k]).title = "Segment " ++ toString (k + 1) := by
    intro k hk
    simp [initState] at hk
  have hall := foldl_segments_title baseUrl (preprocessLines content) initState hbase k hk2
  have hx : pl.segments[k] =
      ((parseAllLines baseUrl (preprocessLines content)).segments).get ⟨k, hk2⟩ := by
    simp only [hseg, List.get_eq_getElem]
  rw [hx]
  exact hall

/-- C10 witness: the first segment of the example playlist. -/
theorem claim_C10_witness :
    (exPl.segments.get ⟨0, by decide⟩).title = "Segment " ++ toString (0 + 1) :=
  claim_C10 exContent exBase exPl rfl 0 (by decide)

/-! ## Claim theorems: the download pipeline -/

theorem jsRoundPct_mono {k k' : Nat} (n : Nat) (h : k ≤ k') :
    jsRoundPct k n ≤ jsRoundPct k' n := by
  unfold jsRoundPct
  exact Nat.div_le_div_right (by omega)

theorem jsRoundPct_self {n : Nat} (h : 0 < n) : jsRoundPct n n = 100 := by
  unfold jsRoundPct
  rw [show 200 * n + n = 201 * n from by ring, Nat.mul_div_mul_right 201 2 h]

theorem getLast_of_cons_map_range {α : Type} (a : α) (f : Nat → α) (m : Nat) :
    (a :: (List.range (m + 1)).map f).getLast? = some (f m) := by
  rw [List.range_succ, List.map_append, List.map_cons, List.map_nil]
  rw [show a :: ((List.range m).map f ++ [f m]) =
    (a :: (List.range m).map f) ++ [f m] from rfl]
  exact List.getLast?_concat _

/-- C2: a fully successful run over `N ≥ 1` segments emits exactly `N + 1`
progress events, whose `segmentIndex` values are `0, 1, …, N` in order, whose
percentages are monotonically non-decreasing, and whose final percentage is
exactly 100. -/
theorem claim_C2 (segs : List M3U8Segment) (fetch : Nat → FetchOutcome)
    (cancelled : Nat → Bool) (bs : Nat → List Nat) (hne : segs ≠ [])
    (hok : ∀ i, i < segs.length → cancelled i = false ∧ fetch i = FetchOutcome.ok (bs i)) :
    (downloadM3U8 segs fetch cancelled).events.length = segs.length + 1 ∧
    (downloadM3U8 segs fetch cancelled).events.map (fun e => e.segmentIndex) =
      List.range (segs.length + 1) ∧
    List.Pairwise (· ≤ ·)
      ((downloadM3U8 segs fetch cancelled).events.map (fun e => e.percentage)) ∧
    ((downloadM3U8 segs fetch cancelled).events.map (fun e => e.percentage)).getLast? =
      some 100 := by
  have hok0 : ∀ j, j < segs.length →
      cancelled (0 + j) = false ∧ fetch (0 + j) = FetchOutcome.ok (bs (0 + j)) := by
    intro j hj; simpa using hok j hj
  have hev : (downloadM3U8 segs fetch cancelled).events =
      { segmentIndex := 0, totalSegments := segs.length, downloadedBytes := 0,
        totalBytes := 0, percentage := 0 } ::
        (List.range segs.length).map (fun j =>
          segEvent segs.length j (bytesFrom bs 0 (j + 1)) (bytesFrom bs 0 (j + 1))) := by
    unfold downloadM3U8
    rw [runLoop_okAll fetch cancelled segs.length bs segs 0 _ hok0]
    simp [accAfter]
  rw [hev]
  obtain ⟨m, hm⟩ : ∃ m, segs.length = m + 1 := by
    refine ⟨segs.length - 1, ?_⟩
    have hz : segs.length ≠ 0 := fun h0 => hne (List.eq_nil_of_length_eq_zero h0)
    omega
  refine ⟨by simp, ?_, ?_, ?_⟩
  · simp only [List.map_cons, List.map_map]
    rw [List.range_succ_eq_map]
    congr 1
  · simp only [List.map_cons, List.map_map]
    rw [List.pairwise_cons]
    constructor
    · intro b _
      exact Nat.zero_le b
    · rw [List.pairwise_map]
      exact (List.pairwise_lt_range segs.length).imp
        (fun hab => jsRoundPct_mono segs.length (by omega))
  · rw [hm]
    simp only [List.map_cons, List.map_map]
    rw [getLast_of_cons_map_range]
    show some (jsRoundPct (m + 1) (m + 1)) = some 100
    rw [jsRoundPct_self (by omega)]

/-- C2 witness: the two-segment always-successful run. -/
theorem claim_C2_witness :
    (downloadM3U8 exSegs2 exFetch2 neverCancel).events.length = exSegs2.length + 1 ∧
    (downloadM3U8 exSegs2 exFetch2 neverCancel).events.map (fun e => e.segmentIndex) =
      List.range (exSegs2.length + 1) ∧
    List.Pairwise (· ≤ ·)
      ((downloadM3U8 exSegs2 exFetch2 neverCancel).events.map (fun e => e.percentage)) ∧
    ((downloadM3U8 exSegs2 exFetch2 neverCancel).events.map (fun e => e.percentage)).getLast? =
      some 100 :=
  claim_C2 exSegs2 exFetch2 neverCancel exBytes2 (by decide) (by decide)

/-- C3: when every fetch succeeds, the returned buffer is the byte-for-byte
concatenation of the fetched segment buffers in playlist order. -/
theorem claim_C3 (segs : List M3U8Segment) (fetch : Nat → FetchOutcome)
    (cancelled : Nat → Bool) (bs : Nat → List Nat)
    (hok : ∀ i, i < segs.length → cancelled i = false ∧ fetch i = FetchOutcome.ok (bs i)) :
    (downloadM3U8 segs fetch cancelled).outcome =
      RunOutcome.success (((List.range segs.length).map bs).flatten) := by
  have hok0 : ∀ j, j < segs.length →
      cancelled (0 + j) = false ∧ fetch (0 + j) = FetchOutcome.ok (bs (0 + j)) := by
    intro j hj; simpa using hok j hj
  unfold downloadM3U8
  rw [runLoop_okAll fetch cancelled segs.length bs segs 0 _ hok0]
  simp

/-- C3 witness: the specification's concatenation example, `[1,2] ++ [3]`. -/
theorem claim_C3_witness :
    (downloadM3U8 exSegs2 exFetch2 neverCancel).outcome = RunOutcome.success [1, 2, 3] := by
  have h := claim_C3 exSegs2 exFetch2 neverCancel exBytes2 (by decide)
  exact h.trans (by decide)

/-- C4: if the fetches of segments `1 … k-1` succeed and the fetch of segment
`k` (1-based) fails for a non-cancellation reason, the run aborts reporting
the failing index `k`, and no byte buffer — in particular none of the `k-1`
successfully fetched ones — is returned. -/
theorem claim_C4 (segs : List M3U8Segment) (fetch : Nat → FetchOutcome)
    (cancelled : Nat → Bool) (bs : Nat → List Nat) (k : Nat)
    (hk1 : 1 ≤ k) (hk2 : k ≤ segs.length)
    (hpre : ∀ j, j < k - 1 → cancelled j = false ∧ fetch j = FetchOutcome.ok (bs j))
    (hcan : cancelled (k - 1) = false) (hfail : fetch (k - 1) = FetchOutcome.fail) :
    (downloadM3U8 segs fetch cancelled).outcome = RunOutcome.segmentFailed k ∧
    (downloadM3U8 segs fetch cancelled).errs = [k] ∧
    ∀ bytes, (downloadM3U8 segs fetch cancelled).outcome ≠ RunOutcome.success bytes := by
  have hpre0 : ∀ j, j < k - 1 →
      cancelled (0 + j) = false ∧ fetch (0 + j) = FetchOutcome.ok (bs (0 + j)) := by
    intro j hj; simpa using hpre j hj
  obtain ⟨s, r, hdrop⟩ : ∃ s r, segs.drop (k - 1) = s :: r := by
    cases hd : segs.drop (k - 1) with
    | nil =>
      rw [List.drop_eq_nil_iff] at hd
      omega
    | cons s r => exact ⟨s, r, rfl⟩
  have hrun : downloadM3U8 segs fetch cancelled =
      ⟨(accAfter segs.length bs 0 (k - 1)
          ⟨[{ segmentIndex := 0, totalSegments := segs.length, downloadedBytes := 0,
              totalBytes := 0, percentage := 0 }], [], 0, [], 0, 0⟩).events,
        [] ++ [k - 1 + 1], 0 + (k - 1) + 1, RunOutcome.segmentFailed (k - 1 + 1)⟩ := by
    unfold downloadM3U8
    rw [runLoop_okSteps fetch cancelled segs.length bs (k - 1) segs 0 _ (by omega) hpre0,
      hdrop, show (0 : Nat) + (k - 1) = k - 1 from by omega]
    simp only [runLoop, hcan, Bool.false_eq_true, if_false, hfail]
    rw [show k - 1 = 0 + (k - 1) from by omega]
    simp [accAfter]
  rw [hrun]
  refine ⟨?_, ?_, ?_⟩
  · show RunOutcome.segmentFailed (k - 1 + 1) = RunOutcome.segmentFailed k
    rw [show k - 1 + 1 = k from by omega]
  · show [] ++ [k - 1 + 1] = [k]
    rw [show k - 1 + 1 = k from by omega]
    rfl
  · intro bytes hcontra
    exact RunOutcome.noConfusion hcontra

/-- C4 witness: three segments, fetch of segment 2 fails. -/
theorem claim_C4_witness :
    (downloadM3U8 exSegs3 exFetchFail neverCancel).outcome = RunOutcome.segmentFailed 2 ∧
    (downloadM3U8 exSegs3 exFetchFail neverCancel).errs = [2] :=
  ⟨(claim_C4 exSegs3 exFetchFail neverCancel exBytesFail 2 (by decide) (by decide)
      (by decide) (by decide) (by decide)).1,
   (claim_C4 exSegs3 exFetchFail neverCancel exBytesFail 2 (by decide) (by decide)
      (by decide) (by decide) (by decide)).2.1⟩

/-- C5 counterexample: for the **empty** playlist the loop body never runs,
so a cancellation signal that is already set is never observed — the run
returns an empty successful result rather than failing with the cancellation
error.  (Zero fetches are still performed.) -/
theorem claim_C5_counterexample :
    (downloadM3U8 [] exFetchFail alwaysCancel).outcome = RunOutcome.success [] ∧
    (downloadM3U8 [] exFetchFail alwaysCancel).outcome ≠ RunOutcome.cancelled ∧
    (downloadM3U8 [] exFetchFail alwaysCancel).calls = 0 := by
  refine ⟨by decide, ?_, by decide⟩
  intro h
  have h2 : RunOutcome.success [] = RunOutcome.cancelled := by
    rw [← h]; decide
  exact RunOutcome.noConfusion h2

/-- C5 (amended): for every playlist with **at least one** segment, a
cancellation signal set before the first fetch begins makes the run fail with
the cancellation error, with zero fetches performed; the empty playlist
instead returns an empty successful result without consulting the signal. -/
theorem claim_C5_amended (segs : List M3U8Segment) (fetch : Nat → FetchOutcome)
    (cancelled : Nat → Bool) (hne : segs ≠ []) (hc : cancelled 0 = true) :
    (downloadM3U8 segs fetch cancelled).outcome = RunOutcome.cancelled ∧
    (downloadM3U8 segs fetch cancelled).calls = 0 := by
  cases segs with
  | nil => exact absurd rfl hne
  | cons s r =>
    unfold downloadM3U8
    simp [runLoop, hc]

/-- C5 witness: a two-segment playlist with the signal set from the start. -/
theorem claim_C5_witness :
    (downloadM3U8 exSegs2 exFetch2 alwaysCancel).outcome = RunOutcome.cancelled ∧
    (downloadM3U8 exSegs2 exFetch2 alwaysCancel).calls = 0 :=
  claim_C5_amended exSegs2 exFetch2 alwaysCancel (by decide) (by decide)
